import Mathlib

/-!
Verification of the tensor-container mixins in
`unitorch/cli/models/modeling_utils.py` and of the generation repacking in
`unitorch/models/chatglm/modeling.py` / `unitorch/models/xprophetnet/modeling.py`.

The torch tensor library is an external collaborator; it is modelled here by
a shape-indexed functional tensor (`Tensor`), with `torchCat`, `torchStack`,
`Tensor.select` mirroring `torch.cat`, `torch.stack` and integer indexing
along a dimension.  Python `dict`s preserve insertion order and are modelled
as association lists; assertions and raised exceptions are modelled by
`Except String`.
-/

/-- The device a tensor lives on. -/
inductive Device where
  | cpu : Device
  | cuda : Device
deriving DecidableEq, Repr

/-- Model of a torch tensor: a shape, a device, and the entries as a function
from index lists to integers.  Only indices of length `shape.length` are
meaningful. -/
structure Tensor where
  shape : List Nat
  device : Device
  data : List Nat → Int

/-- Fallback tensor used for out-of-range accesses inside the torch model. -/
def Tensor.dfl : Tensor := ⟨[], Device.cpu, fun _ => 0⟩

instance : Inhabited Tensor := ⟨Tensor.dfl⟩

/-- Number of dimensions of a tensor. -/
def Tensor.ndim (t : Tensor) : Nat := t.shape.length

/-- `tensor.cpu()` : same tensor moved to the cpu device. -/
def Tensor.toCpu (t : Tensor) : Tensor := ⟨t.shape, Device.cpu, t.data⟩

/-- `tensor.cuda()` : same tensor moved to the cuda device. -/
def Tensor.toCuda (t : Tensor) : Tensor := ⟨t.shape, Device.cuda, t.data⟩

/-- Element of a list at a position, with an explicit default. -/
def getAt : List α → Nat → α → α
  | [], _, d => d
  | a :: _, 0, _ => a
  | _ :: l, n + 1, d => getAt l n d

/-- Replace the element of a list at a position (no-op when out of range). -/
def setAt : Nat → α → List α → List α
  | _, _, [] => []
  | 0, a, _ :: l => a :: l
  | n + 1, a, b :: l => b :: setAt n a l

/-- Insert an element at a position (no-op when the position is past the
end, mirroring the permissiveness needed for total functions). -/
def insertAt : Nat → α → List α → List α
  | 0, a, l => a :: l
  | _ + 1, _, [] => []
  | n + 1, a, b :: l => b :: insertAt n a l

/-- Remove the element at a position. -/
def removeAt : Nat → List α → List α
  | _, [] => []
  | 0, _ :: l => l
  | n + 1, b :: l => b :: removeAt n l

theorem getAt_insertAt (l : List α) (n : Nat) (a d : α) (h : n ≤ l.length) :
    getAt (insertAt n a l) n d = a := by
  induction l generalizing n with
  | nil =>
    cases n with
    | zero => rfl
    | succ n => simp at h
  | cons b l ih =>
    cases n with
    | zero => rfl
    | succ n => exact ih n (by simpa using h)

theorem removeAt_insertAt (l : List α) (n : Nat) (a : α) (h : n ≤ l.length) :
    removeAt n (insertAt n a l) = l := by
  induction l generalizing n with
  | nil =>
    cases n with
    | zero => rfl
    | succ n => simp at h
  | cons b l ih =>
    cases n with
    | zero => rfl
    | succ n => simpa [insertAt, removeAt] using ih n (by simpa using h)

theorem length_removeAt_insertAt (l : List α) (n : Nat) (a : α) (h : n ≤ l.length) :
    (removeAt n (insertAt n a l)).length = l.length := by
  rw [removeAt_insertAt _ _ _ h]

theorem getAt_mem (l : List α) (i : Nat) (d : α) (h : i < l.length) : getAt l i d ∈ l := by
  induction l generalizing i with
  | nil => simp at h
  | cons b t ih =>
    cases i with
    | zero => exact List.mem_cons_self _ _
    | succ n => exact List.mem_cons_of_mem _ (ih n (by simpa using h))

/-- `torch.stack(tensors, dim)`: all tensors must share a shape and a device
and `dim` must be at most the rank; a new axis of size `tensors.length` is
inserted at position `dim`. -/
def torchStack (ts : List Tensor) (dim : Nat) : Option Tensor :=
  match ts with
  | [] => none
  | t0 :: rest =>
    if (∀ t ∈ rest, t.shape = t0.shape ∧ t.device = t0.device) ∧ dim ≤ t0.ndim then
      some ⟨insertAt dim ts.length t0.shape, t0.device,
            fun idx => (getAt ts (getAt idx dim 0) Tensor.dfl).data (removeAt dim idx)⟩
    else none

/-- Entry of the concatenation of tensors along `dim`: walk the pieces,
subtracting each piece's extent along `dim` until the index falls inside. -/
def catData (dim : Nat) : List Tensor → List Nat → Int
  | [], _ => 0
  | t :: rest, idx =>
    let i := getAt idx dim 0
    if i < getAt t.shape dim 0 then t.data idx
    else catData dim rest (setAt dim (i - getAt t.shape dim 0) idx)

/-- `torch.cat(tensors, dim)`: all tensors must share a device and agree on
every dimension except `dim`; the extents along `dim` are summed. -/
def torchCat (ts : List Tensor) (dim : Nat) : Option Tensor :=
  match ts with
  | [] => none
  | t0 :: _ =>
    if (∀ t ∈ ts, t.device = t0.device ∧ t.ndim = t0.ndim ∧
          removeAt dim t.shape = removeAt dim t0.shape) ∧ dim < t0.ndim then
      some ⟨setAt dim ((ts.map (fun t => getAt t.shape dim 0)).sum) t0.shape,
            t0.device, catData dim ts⟩
    else none

/-- Integer indexing `t[i]` generalised to an arbitrary axis: `select t dim i`
drops axis `dim`, fixing it at `i` (torch `Tensor.select`). -/
def Tensor.select (t : Tensor) (dim i : Nat) : Tensor :=
  ⟨removeAt dim t.shape, t.device, fun idx => t.data (insertAt dim i idx)⟩

/-- Tensor equality in the sense of `torch.equal`: same shape, same device and
the same entry at every index of the right length. -/
def Tensor.teq (a b : Tensor) : Prop :=
  a.shape = b.shape ∧ a.device = b.device ∧
    ∀ idx : List Nat, idx.length = a.shape.length → a.data idx = b.data idx

/-- Selecting index `i` of the freshly stacked axis recovers the `i`-th input
tensor. -/
theorem select_torchStack (ts : List Tensor) (dim : Nat) (t : Tensor)
    (hs : torchStack ts dim = some t) (i : Nat) (hi : i < ts.length) :
    Tensor.teq (t.select dim i) (getAt ts i Tensor.dfl) := by
  cases ts with
  | nil => simp [torchStack] at hs
  | cons t0 rest =>
    rw [torchStack] at hs
    by_cases hcond : (∀ t ∈ rest, t.shape = t0.shape ∧ t.device = t0.device) ∧ dim ≤ t0.ndim
    · rw [if_pos hcond] at hs
      obtain ⟨hall, hdim⟩ := hcond
      have ht := Option.some.inj hs
      subst ht
      have hsd : (getAt (t0 :: rest) i Tensor.dfl).shape = t0.shape ∧
          (getAt (t0 :: rest) i Tensor.dfl).device = t0.device := by
        rcases List.mem_cons.mp (getAt_mem (t0 :: rest) i Tensor.dfl hi) with h0 | hr
        · rw [h0]; exact ⟨rfl, rfl⟩
        · exact hall _ hr
      refine ⟨?_, hsd.2.symm, ?_⟩
      · show removeAt dim (insertAt dim (t0 :: rest).length t0.shape)
            = (getAt (t0 :: rest) i Tensor.dfl).shape
        rw [removeAt_insertAt _ _ _ hdim, hsd.1]
      · intro idx hlen
        have hlen2 : idx.length = t0.shape.length := by
          have h2 : idx.length
              = (removeAt dim (insertAt dim (t0 :: rest).length t0.shape)).length := hlen
          rwa [removeAt_insertAt _ _ _ hdim] at h2
        have hdi : dim ≤ idx.length := by rw [hlen2]; exact hdim
        show (getAt (t0 :: rest) (getAt (insertAt dim i idx) dim 0) Tensor.dfl).data
            (removeAt dim (insertAt dim i idx))
          = (getAt (t0 :: rest) i Tensor.dfl).data idx
        rw [getAt_insertAt _ _ _ _ hdi, removeAt_insertAt _ _ _ hdi]
    · rw [if_neg hcond] at hs
      exact absurd hs (by simp)

/-! ### Python dicts as ordered association lists, and exception plumbing -/

/-- Lookup in an ordered association list (Python `d[key]`, first occurrence). -/
def lookupKV : List (String × α) → String → Option α
  | [], _ => none
  | (k, v) :: rest, key => if k = key then some v else lookupKV rest key

/-- Ordered key list of a Python dict (`list(d.keys())`). -/
def keysOf (m : List (String × α)) : List String := m.map Prod.fst

/-- Python dict assignment `d[k] = v`: overwrite in place when the key is
present, otherwise append at the end (insertion order). -/
def setKV (m : List (String × α)) (k : String) (v : α) : List (String × α) :=
  if (lookupKV m k).isSome then
    m.map (fun kv => if kv.1 = k then (k, v) else kv)
  else m ++ [(k, v)]

/-- Python `d[key]` in a context where a missing key raises `KeyError`. -/
def expectKey (m : List (String × α)) (k : String) : Except String α :=
  match lookupKV m k with
  | some v => Except.ok v
  | none => Except.error "KeyError"

/-- Effectful map over a list, stopping at the first raised exception: the
semantics of a Python `for` loop that builds a list and may raise. -/
def mapE (f : α → Except String β) : List α → Except String (List β)
  | [] => Except.ok []
  | a :: rest =>
    match f a with
    | Except.error e => Except.error e
    | Except.ok b =>
      match mapE f rest with
      | Except.error e => Except.error e
      | Except.ok bs => Except.ok (b :: bs)

theorem mapE_eq_ok (f : α → Except String β) (l : List α) (ys : List β) :
    mapE f l = Except.ok ys ↔ List.Forall₂ (fun a y => f a = Except.ok y) l ys := by
  induction l generalizing ys with
  | nil =>
    constructor
    · intro h
      cases ys with
      | nil => exact List.Forall₂.nil
      | cons y ys => simp [mapE] at h
    · intro h
      cases h
      rfl
  | cons a rest ih =>
    constructor
    · intro h
      rw [mapE] at h
      cases hfa : f a with
      | error e => rw [hfa] at h; exact absurd h (by simp)
      | ok b =>
        rw [hfa] at h
        cases hrest : mapE f rest with
        | error e => rw [hrest] at h; exact absurd h (by simp)
        | ok bs =>
          rw [hrest] at h
          have hys : b :: bs = ys := by
            simpa using h
          subst hys
          exact List.Forall₂.cons hfa ((ih bs).mp hrest)
    · intro h
      cases h with
      | cons hfa hrest =>
        rw [mapE, hfa, (ih _).mpr hrest]

theorem mapE_ok_of_fn (f : α → Except String β) (g : α → β) (l : List α)
    (h : ∀ a ∈ l, f a = Except.ok (g a)) : mapE f l = Except.ok (l.map g) := by
  induction l with
  | nil => rfl
  | cons a rest ih =>
    rw [mapE, h a (List.mem_cons_self _ _), ih (fun x hx => h x (List.mem_cons_of_mem _ hx))]
    rfl

theorem mapE_error_mem (f : α → Except String β) (l : List α) (e : String)
    (h : mapE f l = Except.error e) : ∃ a ∈ l, f a = Except.error e := by
  induction l with
  | nil => simp [mapE] at h
  | cons a rest ih =>
    rw [mapE] at h
    cases hfa : f a with
    | error e2 =>
      rw [hfa] at h
      have he : e2 = e := by simpa using h
      exact ⟨a, List.mem_cons_self _ _, by rw [hfa, he]⟩
    | ok b =>
      rw [hfa] at h
      cases hrest : mapE f rest with
      | error e2 =>
        rw [hrest] at h
        have he : e2 = e := by simpa using h
        obtain ⟨x, hx, hfx⟩ := ih (by rw [hrest, he])
        exact ⟨x, List.mem_cons_of_mem _ hx, hfx⟩
      | ok bs => rw [hrest] at h; exact absurd h (by simp)

theorem mapE_first_error (f : α → Except String β) (l : List α) (m : String)
    (hall : ∀ a ∈ l, (∃ y, f a = Except.ok y) ∨ f a = Except.error m)
    (hbad : ∃ a ∈ l, ∀ y, f a ≠ Except.ok y) :
    mapE f l = Except.error m := by
  induction l with
  | nil => obtain ⟨a, ha, _⟩ := hbad; simp at ha
  | cons a rest ih =>
    rcases hall a (List.mem_cons_self _ _) with ⟨y, hy⟩ | herr
    · rw [mapE, hy]
      have hbad2 : ∃ x ∈ rest, ∀ y, f x ≠ Except.ok y := by
        obtain ⟨x, hx, hfx⟩ := hbad
        rcases List.mem_cons.mp hx with h0 | hr
        · exact absurd hy (h0 ▸ hfx y)
        · exact ⟨x, hr, hfx⟩
      rw [ih (fun x hx => hall x (List.mem_cons_of_mem _ hx)) hbad2]
    · rw [mapE, herr]

theorem lookupKV_eq_none_of_not_mem (m : List (String × α)) (k : String)
    (h : k ∉ keysOf m) : lookupKV m k = none := by
  induction m with
  | nil => rfl
  | cons kv rest ih =>
    rw [lookupKV]
    have hne : kv.1 ≠ k := by
      intro he
      exact h (by rw [← he]; exact List.mem_cons_self _ _)
    rw [if_neg hne]
    exact ih (fun hm => h (List.mem_cons_of_mem _ hm))

theorem mem_keysOf_of_lookupKV (m : List (String × α)) (k : String) (v : α)
    (h : lookupKV m k = some v) : k ∈ keysOf m := by
  by_contra hk
  rw [lookupKV_eq_none_of_not_mem m k hk] at h
  exact absurd h (by simp)

/-! ### Error messages for the modelled assertions and exceptions -/

/-- `assert keys == list(tensors.__tensors__.keys())` failing. -/
def assertKeysMsg : String := "AssertionError: key lists differ"

/-- `torch.cat` rejecting incompatible inputs. -/
def catFailMsg : String := "RuntimeError: torch.cat"

/-- `torch.stack` rejecting incompatible inputs. -/
def stackFailMsg : String := "RuntimeError: torch.stack"

/-- `assert all([len(list_tensor) == 1 for ...])` failing in list stack. -/
def singletonMsg : String := "AssertionError: list length is not 1"

/-- `assert all([isinstance(tensor, torch.Tensor) for ...])` failing in
`ListTensorsMixin.__post_init__`. -/
def elementMsg : String := "AssertionError: element is not a tensor"

/-- Reading the missing `__tensors__` attribute of a pure list bundle. -/
def attrErrMsg : String := "AttributeError: no tensors attribute"

/-! ### TensorsMixin: dict from field name to a single tensor -/

/-- The `__tensors__` mapping of a `TensorsMixin`. -/
abbrev TensorsDict := List (String × Tensor)

namespace TensorsMixin

/-- `TensorsMixin.union(*list_tensors, dim)`: empty input gives an empty
container; otherwise assert every bundle's key list equals the first's, then
concatenate per key with `torch.cat`. -/
def union (list_tensors : List TensorsDict) (dim : Nat) : Except String TensorsDict :=
  match list_tensors with
  | [] => Except.ok []
  | first_tensors :: _ =>
    if ∀ b ∈ list_tensors, keysOf b = keysOf first_tensors then
      mapE (fun key =>
        match mapE (fun b => expectKey b key) list_tensors with
        | Except.error e => Except.error e
        | Except.ok vs =>
          match torchCat vs dim with
          | some t => Except.ok (key, t)
          | none => Except.error catFailMsg) (keysOf first_tensors)
    else Except.error assertKeysMsg

/-- `TensorsMixin.stack(*list_tensors, dim)`: as `union` but with
`torch.stack`. -/
def stack (list_tensors : List TensorsDict) (dim : Nat) : Except String TensorsDict :=
  match list_tensors with
  | [] => Except.ok []
  | first_tensors :: _ =>
    if ∀ b ∈ list_tensors, keysOf b = keysOf first_tensors then
      mapE (fun key =>
        match mapE (fun b => expectKey b key) list_tensors with
        | Except.error e => Except.error e
        | Except.ok vs =>
          match torchStack vs dim with
          | some t => Except.ok (key, t)
          | none => Except.error stackFailMsg) (keysOf first_tensors)
    else Except.error assertKeysMsg

/-- `TensorsMixin.add(tensors)`: iterate over the other dict; on a key
collision the source executes `assert ValueError(...)`, which asserts a
truthy exception object and therefore never raises, and the `else` branch is
skipped, so the colliding key is silently left at its old value; fresh keys
are appended.  The function is total: no code path raises. -/
def add (self other : TensorsDict) : TensorsDict :=
  other.foldl
    (fun acc kv => if (lookupKV acc kv.1).isSome then acc else acc ++ [kv]) self

end TensorsMixin

/-! ### ListTensorsMixin: dict from field name to a list of tensors -/

/-- The `__list_tensors__` mapping of a `ListTensorsMixin`. -/
abbrev ListDict := List (String × List Tensor)

/-- A dynamically typed Python value bound to a list-tensor field before
`__post_init__` validation: either a tensor or a Python list of such values. -/
inductive RVal where
  | rt : Tensor → RVal
  | rl : List RVal → RVal

/-- The normalisation step of `ListTensorsMixin.__post_init__`:
`if isinstance(value, torch.Tensor): value = [value]`. -/
def normVal : RVal → RVal
  | RVal.rt t => RVal.rl [RVal.rt t]
  | v => v

/-- `assert all([isinstance(tensor, torch.Tensor) for tensor in list_tensor])`
followed by taking the (now known to be) tensors. -/
def asTensors : List RVal → Except String (List Tensor)
  | [] => Except.ok []
  | RVal.rt t :: rest =>
    (match asTensors rest with
     | Except.error e => Except.error e
     | Except.ok ts => Except.ok (t :: ts))
  | RVal.rl _ :: _ => Except.error elementMsg

/-- Validation of a single field value in `ListTensorsMixin.__post_init__`. -/
def postInitVal (v : RVal) : Except String (List Tensor) :=
  match normVal v with
  | RVal.rl vs => asTensors vs
  | RVal.rt t => asTensors [RVal.rt t]

namespace ListTensorsMixin

/-- `ListTensorsMixin.__post_init__`: normalise every field value (wrapping a
bare tensor into a one-element list) and assert every element is a tensor. -/
def postInit (m : List (String × RVal)) : Except String ListDict :=
  mapE (fun kv =>
    match postInitVal kv.2 with
    | Except.error e => Except.error e
    | Except.ok ts => Except.ok (kv.1, ts)) m

end ListTensorsMixin

/-- Field values of an already validated list bundle, as the raw Python
values handed to a constructor (`cls(**new_list_tensors)`). -/
def toRVals (m : ListDict) : List (String × RVal) :=
  m.map (fun kv => (kv.1, RVal.rl (kv.2.map RVal.rt)))

theorem asTensors_map_rt (l : List Tensor) :
    asTensors (l.map RVal.rt) = Except.ok l := by
  induction l with
  | nil => rfl
  | cons t rest ih => rw [List.map_cons, asTensors, ih]

theorem postInit_toRVals (m : ListDict) :
    ListTensorsMixin.postInit (toRVals m) = Except.ok m := by
  induction m with
  | nil => rfl
  | cons kv rest ih =>
    show mapE _ ((kv.1, RVal.rl (kv.2.map RVal.rt)) :: toRVals rest) = _
    rw [mapE]
    have h1 : postInitVal (RVal.rl (kv.2.map RVal.rt)) = Except.ok kv.2 :=
      asTensors_map_rt kv.2
    simp only [h1]
    have h2 : mapE (fun kv : String × RVal =>
        match postInitVal kv.2 with
        | Except.error e => Except.error e
        | Except.ok ts => Except.ok (kv.1, ts)) (toRVals rest) = Except.ok rest := ih
    simp only [h2]

namespace ListTensorsMixin

/-- `ListTensorsMixin.union(*list_of_list_tensors, dim)`: key-list assertion,
then per key the per-bundle lists are chained (`itertools.chain`), and the
result is passed through the constructor (hence `__post_init__`). -/
def union (list_of_list_tensors : List ListDict) (dim : Nat) : Except String ListDict :=
  match list_of_list_tensors with
  | [] => Except.ok []
  | first :: _ =>
    if ∀ b ∈ list_of_list_tensors, keysOf b = keysOf first then
      match mapE (fun key =>
          match mapE (fun b => expectKey b key) list_of_list_tensors with
          | Except.error e => Except.error e
          | Except.ok vs => Except.ok (key, vs.flatten)) (keysOf first) with
      | Except.error e => Except.error e
      | Except.ok raw => postInit (toRVals raw)
    else Except.error assertKeysMsg

/-- `ListTensorsMixin.stack(*list_of_list_tensors, dim)`: key-list assertion,
then per key assert every bundle's list has exactly one element before
chaining, and pass the result through the constructor. -/
def stack (list_of_list_tensors : List ListDict) (dim : Nat) : Except String ListDict :=
  match list_of_list_tensors with
  | [] => Except.ok []
  | first :: _ =>
    if ∀ b ∈ list_of_list_tensors, keysOf b = keysOf first then
      match mapE (fun key =>
          match mapE (fun b => expectKey b key) list_of_list_tensors with
          | Except.error e => Except.error e
          | Except.ok vs =>
            if ∀ v ∈ vs, v.length = 1 then Except.ok (key, vs.flatten)
            else Except.error singletonMsg) (keysOf first) with
      | Except.error e => Except.error e
      | Except.ok raw => postInit (toRVals raw)
    else Except.error assertKeysMsg

/-- `ListTensorsMixin.add(list_tensors)`: same silently-skipping collision
handling as `TensorsMixin.add` (`assert ValueError(...)` never raises). -/
def add (self other : ListDict) : ListDict :=
  other.foldl
    (fun acc kv => if (lookupKV acc kv.1).isSome then acc else acc ++ [kv]) self

end ListTensorsMixin

/-! ### The in-place device transfer of ListTensorsMixin

`ListTensorsMixin.cpu(inplace=True)` stores the moved lists into
`self.__tensors__` (not `self.__list_tensors__`).  On a pure list bundle the
`__tensors__` attribute does not exist, so the first loop iteration raises
`AttributeError`; on a combined bundle the moved lists are written into the
single-tensor dict while `self.__list_tensors__` (hence `dict()`) keeps the
unmoved tensors.  `cuda(inplace=True)` writes `self.__list_tensors__` as
intended. -/

/-- A dynamically typed value stored in a `__tensors__` dict: normally a
tensor, but the buggy in-place `cpu` writes whole lists into it. -/
inductive PVal where
  | pt : Tensor → PVal
  | pl : List Tensor → PVal

/-- The attribute state a `ListTensorsMixin` method can see: `tensors` is
`none` when the object has no `__tensors__` attribute (pure list bundle). -/
structure PyBundle where
  tensors : Option (List (String × PVal))
  list_tensors : ListDict

namespace ListTensorsMixin

/-- `ListTensorsMixin.cpu(inplace=True)`: build the moved lists, then execute
`self.__tensors__[key] = value` for each key. -/
def cpu_inplace (st : PyBundle) : Except String PyBundle :=
  let new_list_tensors := st.list_tensors.map (fun kv => (kv.1, kv.2.map Tensor.toCpu))
  match st.tensors with
  | none =>
    if new_list_tensors.isEmpty then Except.ok st else Except.error attrErrMsg
  | some td =>
    Except.ok ⟨some (new_list_tensors.foldl
        (fun acc kv => setKV acc kv.1 (PVal.pl kv.2)) td), st.list_tensors⟩

/-- `ListTensorsMixin.cuda(inplace=True)`: build the moved lists, then execute
`self.__list_tensors__[key] = value` for each key. -/
def cuda_inplace (st : PyBundle) : PyBundle :=
  let new_list_tensors := st.list_tensors.map (fun kv => (kv.1, kv.2.map Tensor.toCuda))
  ⟨st.tensors, new_list_tensors.foldl (fun acc kv => setKV acc kv.1 kv.2) st.list_tensors⟩

end ListTensorsMixin

/-! ### CombineTensorsMixin: a tensor dict and a list-tensor dict together -/

/-- The two field maps of a `CombineTensorsMixin`. -/
structure CombineDict where
  tensors : TensorsDict
  list_tensors : ListDict

/-- `CombineTensorsMixin.dict()`: `{**self.__tensors__, **self.__list_tensors__}`,
the list-tensor map overriding the tensor map on shared keys. -/
def CombineTensorsMixin.dictKV (c : CombineDict) (k : String) : Option (Tensor ⊕ List Tensor) :=
  match lookupKV c.list_tensors k with
  | some l => some (Sum.inr l)
  | none => (lookupKV c.tensors k).map Sum.inl

namespace CombineTensorsMixin

/-- `CombineTensorsMixin.union(*list_of_mix_tensors, dim)`: key-list
assertions on both halves, `torch.cat` per single-tensor key, chaining per
list key, and the constructor (which re-runs both `__post_init__`s). -/
def union (list_of_mix_tensors : List CombineDict) (dim : Nat) : Except String CombineDict :=
  match list_of_mix_tensors with
  | [] => Except.ok ⟨[], []⟩
  | first :: _ =>
    if (∀ b ∈ list_of_mix_tensors, keysOf b.tensors = keysOf first.tensors) ∧
        (∀ b ∈ list_of_mix_tensors, keysOf b.list_tensors = keysOf first.list_tensors) then
      match mapE (fun key =>
          match mapE (fun b => expectKey b.tensors key) list_of_mix_tensors with
          | Except.error e => Except.error e
          | Except.ok vs =>
            match torchCat vs dim with
            | some t => Except.ok (key, t)
            | none => Except.error catFailMsg) (keysOf first.tensors) with
      | Except.error e => Except.error e
      | Except.ok new_tensors =>
        match mapE (fun key =>
            match mapE (fun b => expectKey b.list_tensors key) list_of_mix_tensors with
            | Except.error e => Except.error e
            | Except.ok vs => Except.ok (key, vs.flatten)) (keysOf first.list_tensors) with
        | Except.error e => Except.error e
        | Except.ok new_list_tensors =>
          match ListTensorsMixin.postInit (toRVals new_list_tensors) with
          | Except.error e => Except.error e
          | Except.ok nl => Except.ok ⟨new_tensors, nl⟩
    else Except.error assertKeysMsg

/-- `CombineTensorsMixin.stack(*list_of_mix_tensors, dim)`: key-list
assertions, `torch.stack` per single-tensor key; per list key the per-bundle
lists are collected UNflattened (`new_list_tensors[key] = new_list_tensor`, a
list of lists) and handed to the constructor, whose
`ListTensorsMixin.__post_init__` asserts every element is a tensor. -/
def stack (list_of_mix_tensors : List CombineDict) (dim : Nat) : Except String CombineDict :=
  match list_of_mix_tensors with
  | [] => Except.ok ⟨[], []⟩
  | first :: _ =>
    if (∀ b ∈ list_of_mix_tensors, keysOf b.tensors = keysOf first.tensors) ∧
        (∀ b ∈ list_of_mix_tensors, keysOf b.list_tensors = keysOf first.list_tensors) then
      match mapE (fun key =>
          match mapE (fun b => expectKey b.tensors key) list_of_mix_tensors with
          | Except.error e => Except.error e
          | Except.ok vs =>
            match torchStack vs dim with
            | some t => Except.ok (key, t)
            | none => Except.error stackFailMsg) (keysOf first.tensors) with
      | Except.error e => Except.error e
      | Except.ok new_tensors =>
        match mapE (fun key =>
            match mapE (fun b => expectKey b.list_tensors key) list_of_mix_tensors with
            | Except.error e => Except.error e
            | Except.ok vs =>
              Except.ok (key, RVal.rl (vs.map (fun l => RVal.rl (l.map RVal.rt)))))
            (keysOf first.list_tensors) with
        | Except.error e => Except.error e
        | Except.ok raw =>
          match ListTensorsMixin.postInit raw with
          | Except.error e => Except.error e
          | Except.ok nl => Except.ok ⟨new_tensors, nl⟩
    else Except.error assertKeysMsg

end CombineTensorsMixin

/-! ### Generation wrappers: repacking sequences into a fixed-width buffer

`ChatGLMForGeneration.generate` and `XProphetNetForGeneration.generate` both
call the wrapped decoder, reshape its `(batch*num_return_sequences, L)`
token matrix to `(batch, num_return_sequences, L)`, allocate a zero buffer of
last-dimension width `max_gen_seq_length`, `copy_` the (for ChatGLM:
prompt-stripped) tokens into its leading columns, and flatten the middle axis
when `num_return_sequences == 1`.  A 2-d integer tensor is modelled as its
list of rows; the 3-d reshape groups the rows in chunks of
`num_return_sequences`. -/

/-- The repacked sequences: shape `(batch, width)` when
`num_return_sequences == 1`, else `(batch, num_return_sequences, width)`. -/
inductive GenResult where
  | two : List (List Int) → GenResult
  | three : List (List (List Int)) → GenResult
deriving DecidableEq, Repr

/-- Rows grouped into consecutive chunks of `n` (the row grouping performed
by `reshape(-1, n, L)` on a `(batch*n, L)` tensor). -/
def chunked (n : Nat) (l : List α) : List (List α) :=
  if hc : l.isEmpty ∨ n = 0 then [] else l.take n :: chunked n (l.drop n)
termination_by l.length
decreasing_by
  push_neg at hc
  have h1 : l ≠ [] := by
    intro he
    exact absurd (by rw [he]; rfl) hc.1
  have h2 : 0 < l.length := List.length_pos.mpr h1
  have h3 : 0 < n := Nat.pos_of_ne_zero hc.2
  rw [List.length_drop]
  omega

/-- `dst[:w].copy_(src)` on rows: requires the source row to match the
clamped slice width, then overwrites the first `w` entries. -/
def sliceCopy (dst src : List Int) (w : Nat) : Except String (List Int) :=
  if src.length = min w dst.length then Except.ok (src.take w ++ dst.drop w)
  else Except.error "RuntimeError: copy size mismatch"

/-- The sequence repacking of `ChatGLMForGeneration.generate`: with
`L = sequences.size(-1)`, reshape to `(-1, num_return_sequences, L)`, zero a
`(batch, num_return_sequences, max_gen_seq_length)` buffer, copy
`sequences[:, :, input_seq_length:L]` into its first `L - input_seq_length`
columns, and flatten the middle axis when `num_return_sequences == 1`. -/
def chatglmRepack (num_return_sequences input_seq_length max_gen_seq_length : Nat)
    (rows : List (List Int)) : Except String GenResult :=
  let L := (rows.headD []).length
  if num_return_sequences ≠ 0 ∧ rows.length % num_return_sequences = 0 then
    match mapE (fun grp => mapE (fun row =>
        sliceCopy (List.replicate max_gen_seq_length 0)
          ((row.drop input_seq_length).take (L - input_seq_length))
          (L - input_seq_length)) grp)
      (chunked num_return_sequences rows) with
    | Except.error e => Except.error e
    | Except.ok cube =>
      if num_return_sequences = 1 then Except.ok (GenResult.two cube.flatten)
      else Except.ok (GenResult.three cube)
  else Except.error "RuntimeError: reshape"

/-- The sequence repacking of `XProphetNetForGeneration.generate`: same as
ChatGLM's but the whole rows (width `L = sequences.size(-1)`) are copied into
the first `L` columns; no prompt prefix is dropped. -/
def xprophetnetRepack (num_return_sequences max_gen_seq_length : Nat)
    (rows : List (List Int)) : Except String GenResult :=
  let L := (rows.headD []).length
  if num_return_sequences ≠ 0 ∧ rows.length % num_return_sequences = 0 then
    match mapE (fun grp => mapE (fun row =>
        sliceCopy (List.replicate max_gen_seq_length 0) row L) grp)
      (chunked num_return_sequences rows) with
    | Except.error e => Except.error e
    | Except.ok cube =>
      if num_return_sequences = 1 then Except.ok (GenResult.two cube.flatten)
      else Except.ok (GenResult.three cube)
  else Except.error "RuntimeError: reshape"

theorem chunked_nil (n : Nat) : chunked n ([] : List α) = [] := by
  rw [chunked.eq_def]
  simp

theorem chunked_cons (n : Nat) (l : List α) (hn : n ≠ 0) (hl : l ≠ []) :
    chunked n l = l.take n :: chunked n (l.drop n) := by
  rw [chunked.eq_def]
  rw [dif_neg]
  push_neg
  exact ⟨by simpa using hl, hn⟩

theorem chunked_props (B n : Nat) (l : List α) (hn : 0 < n) (hl : l.length = B * n) :
    (chunked n l).length = B ∧ (∀ grp ∈ chunked n l, grp.length = n) ∧
      (chunked n l).flatten = l := by
  induction B generalizing l with
  | zero =>
    have hnil : l = [] := List.eq_nil_of_length_eq_zero (by simpa using hl)
    subst hnil
    rw [chunked_nil]
    simp
  | succ B ih =>
    have hl0 : l ≠ [] := by
      intro he
      rw [he] at hl
      simp at hl
      omega
    rw [chunked_cons n l (by omega) hl0]
    have hdl : (l.drop n).length = B * n := by
      rw [List.length_drop, hl]
      ring_nf
      omega
    obtain ⟨h1, h2, h3⟩ := ih (l.drop n) hdl
    refine ⟨by simp [h1], ?_, ?_⟩
    · intro grp hg
      rcases List.mem_cons.mp hg with h0 | hr
      · rw [h0, List.length_take, hl]
        have : n ≤ (B + 1) * n := by nlinarith
        omega
      · exact h2 grp hr
    · rw [List.flatten_cons, h3, List.take_append_drop]

theorem sliceCopy_pad (src : List Int) (w maxGen : Nat) (hw : src.length = w)
    (hwm : w ≤ maxGen) :
    sliceCopy (List.replicate maxGen (0 : Int)) src w
      = Except.ok (src ++ List.replicate (maxGen - w) 0) := by
  rw [sliceCopy, if_pos]
  · rw [List.take_of_length_le (by omega), List.drop_replicate]
  · rw [List.length_replicate]
    omega

/-! ### Shared plumbing lemmas -/

theorem lookupKV_isSome_of_mem_keys (m : List (String × α)) (k : String)
    (h : k ∈ keysOf m) : ∃ v, lookupKV m k = some v := by
  induction m with
  | nil => simp [keysOf] at h
  | cons kv rest ih =>
    rw [lookupKV]
    by_cases hk : kv.1 = k
    · exact ⟨kv.2, by rw [if_pos hk]⟩
    · rw [if_neg hk]
      apply ih
      rw [keysOf, List.map_cons] at h
      rcases List.mem_cons.mp h with h0 | hr
      · exact absurd h0.symm hk
      · exact hr

theorem mapE_isOk_of (f : α → Except String β) (l : List α)
    (h : ∀ a ∈ l, ∃ y, f a = Except.ok y) : ∃ ys, mapE f l = Except.ok ys := by
  induction l with
  | nil => exact ⟨[], rfl⟩
  | cons a rest ih =>
    obtain ⟨y, hy⟩ := h a (List.mem_cons_self _ _)
    obtain ⟨ys, hys⟩ := ih (fun x hx => h x (List.mem_cons_of_mem _ hx))
    exact ⟨y :: ys, by rw [mapE, hy, hys]⟩

theorem keysOf_of_forall₂ (f : String → Except String (String × β))
    (keys : List String) (r : List (String × β))
    (hF : List.Forall₂ (fun k y => f k = Except.ok y) keys r)
    (hfst : ∀ k y, f k = Except.ok y → y.1 = k) : keysOf r = keys := by
  induction hF with
  | nil => rfl
  | cons hfa _hrest ih =>
    rw [keysOf, List.map_cons]
    rw [keysOf] at ih
    rw [ih, hfst _ _ hfa]

theorem lookup_result_of_forall₂ (f : String → Except String (String × β))
    (keys : List String) (r : List (String × β))
    (hF : List.Forall₂ (fun k y => f k = Except.ok y) keys r)
    (hfst : ∀ k y, f k = Except.ok y → y.1 = k) (k : String) (hk : k ∈ keys) :
    ∃ v, f k = Except.ok (k, v) ∧ lookupKV r k = some v := by
  induction hF with
  | nil => simp at hk
  | @cons k0 y0 kt rt hfa hrest ih =>
    have hy0 : y0.1 = k0 := hfst _ _ hfa
    by_cases he : k0 = k
    · subst he
      refine ⟨y0.2, ?_, ?_⟩
      · rw [← hy0] at hfa ⊢
        simpa using hfa
      · rw [lookupKV, if_pos hy0]
    · rcases List.mem_cons.mp hk with h0 | hr
      · exact absurd h0.symm he
      · obtain ⟨v, hv1, hv2⟩ := ih hr
        refine ⟨v, hv1, ?_⟩
        rw [lookupKV, if_neg (by rw [hy0]; exact he), hv2]

theorem flatten_map_single (l : List α) : (l.map (fun a => [a])).flatten = l := by
  induction l with
  | nil => rfl
  | cons a rest ih => simpa using ih

/-! ### C9: empty bundle sequences -/

/-- C9.  Calling `union` or `stack` with an empty sequence of bundles yields
an empty container (`cls()`, whose field mapping is the empty dict) on every
mixin, and no error is raised. -/
theorem c9_empty_input_empty_container (dim : Nat) :
    TensorsMixin.union [] dim = Except.ok [] ∧
    TensorsMixin.stack [] dim = Except.ok [] ∧
    ListTensorsMixin.union [] dim = Except.ok [] ∧
    ListTensorsMixin.stack [] dim = Except.ok [] ∧
    CombineTensorsMixin.union [] dim = Except.ok ⟨[], []⟩ ∧
    CombineTensorsMixin.stack [] dim = Except.ok ⟨[], []⟩ :=
  ⟨rfl, rfl, rfl, rfl, rfl, rfl⟩

/-! ### C2: `add` on a colliding key -/

/-- C2 (code bug exhibit).  `add` cannot fail: on a key collision the source
executes `assert ValueError(f"...")`, an assertion on a freshly constructed
(hence truthy) exception object, which never raises; the colliding key is
silently skipped (old value kept, the offered value dropped) while fresh keys
are appended.  Evaluated here on the failing input: a bundle holding key `x`
receiving a dict holding keys `x` and `y`, for both mixins. -/
theorem c2_add_collision_silently_skips :
    TensorsMixin.add [("x", ⟨[2], Device.cpu, fun _ => 1⟩)]
        [("x", ⟨[3], Device.cpu, fun _ => 2⟩), ("y", ⟨[3], Device.cpu, fun _ => 2⟩)]
      = [("x", ⟨[2], Device.cpu, fun _ => 1⟩), ("y", ⟨[3], Device.cpu, fun _ => 2⟩)] ∧
    ListTensorsMixin.add [("x", [⟨[2], Device.cpu, fun _ => 1⟩])]
        [("x", [⟨[3], Device.cpu, fun _ => 2⟩])]
      = [("x", [⟨[2], Device.cpu, fun _ => 1⟩])] :=
  ⟨rfl, rfl⟩

/-! ### C3: in-place device transfer -/

/-- C3 (code bug exhibit).  `ListTensorsMixin.cpu(inplace=True)` writes the
moved lists into `self.__tensors__` instead of `self.__list_tensors__`.  On a
pure list bundle (no `__tensors__` attribute) with one field it raises
`AttributeError`; on a bundle that has a `__tensors__` dict it pollutes that
dict with list values while `self.__list_tensors__` — what `dict()` returns —
still holds the original cuda tensors.  The parallel `cuda(inplace=True)`
updates `self.__list_tensors__` as the spec describes. -/
theorem c3_list_cpu_inplace_bug :
    ListTensorsMixin.cpu_inplace ⟨none, [("x", [⟨[2], Device.cuda, fun _ => 5⟩])]⟩
      = Except.error attrErrMsg ∧
    ListTensorsMixin.cpu_inplace
        ⟨some [("a", PVal.pt ⟨[1], Device.cuda, fun _ => 3⟩)],
         [("x", [⟨[2], Device.cuda, fun _ => 5⟩])]⟩
      = Except.ok ⟨some [("a", PVal.pt ⟨[1], Device.cuda, fun _ => 3⟩),
          ("x", PVal.pl [⟨[2], Device.cpu, fun _ => 5⟩])],
          [("x", [⟨[2], Device.cuda, fun _ => 5⟩])]⟩ ∧
    ListTensorsMixin.cuda_inplace ⟨none, [("x", [⟨[2], Device.cpu, fun _ => 5⟩])]⟩
      = ⟨none, [("x", [⟨[2], Device.cuda, fun _ => 5⟩])]⟩ :=
  ⟨rfl, rfl, rfl⟩

/-! ### C8: construction-time normalisation of single tensors -/

/-- C8.  A `ListTensorBundle` constructed with some field bound to a single
tensor `t` (rather than a list) normalises that field into a one-element
list: after a successful `__post_init__` the field mapping sends it to `[t]`. -/
theorem c8_post_init_wraps_single_tensor (m : List (String × RVal)) (r : ListDict)
    (f : String) (t : Tensor)
    (hok : ListTensorsMixin.postInit m = Except.ok r)
    (hf : lookupKV m f = some (RVal.rt t)) :
    lookupKV r f = some [t] := by
  have h2 : List.Forall₂ (fun (kv : String × RVal) (y : String × List Tensor) =>
      (match postInitVal kv.2 with
       | Except.error e => Except.error e
       | Except.ok ts => Except.ok (kv.1, ts)) = Except.ok y) m r :=
    (mapE_eq_ok _ m r).mp hok
  clear hok
  induction h2 with
  | nil => exact absurd hf (by simp [lookupKV])
  | @cons kv y rest rs hfa _hrest ih =>
    rw [lookupKV] at hf
    by_cases hk : kv.1 = f
    · rw [if_pos hk] at hf
      have hv : kv.2 = RVal.rt t := Option.some.inj hf
      cases hpv : postInitVal kv.2 with
      | error e => rw [hpv] at hfa; exact absurd hfa (by simp)
      | ok ts =>
        rw [hpv] at hfa
        have hy : (kv.1, ts) = y := by simpa using hfa
        rw [hv] at hpv
        have hts : ts = [t] := by
          have hc : postInitVal (RVal.rt t) = Except.ok [t] := rfl
          rw [hc] at hpv
          simpa using hpv.symm
        rw [← hy, lookupKV, if_pos hk, hts]
    · rw [if_neg hk] at hf
      cases hpv : postInitVal kv.2 with
      | error e => rw [hpv] at hfa; exact absurd hfa (by simp)
      | ok ts =>
        rw [hpv] at hfa
        have hy : (kv.1, ts) = y := by simpa using hfa
        rw [← hy, lookupKV, if_neg hk]
        exact ih hf

/-- Witness for C8 at a concrete input: a bundle whose field `img` is bound
to a bare tensor is normalised to a one-element list. -/
theorem c8_witness :
    ListTensorsMixin.postInit [("img", RVal.rt ⟨[4], Device.cpu, fun _ => 9⟩)]
        = Except.ok [("img", [⟨[4], Device.cpu, fun _ => 9⟩])] ∧
    lookupKV [("img", [(⟨[4], Device.cpu, fun _ => 9⟩ : Tensor)])] "img"
        = some [⟨[4], Device.cpu, fun _ => 9⟩] :=
  ⟨rfl, c8_post_init_wraps_single_tensor
    [("img", RVal.rt ⟨[4], Device.cpu, fun _ => 9⟩)]
    [("img", [⟨[4], Device.cpu, fun _ => 9⟩])] "img" ⟨[4], Device.cpu, fun _ => 9⟩
    rfl rfl⟩

/-! ### C4: key-list assertion in TensorsMixin.union / stack -/

theorem perkey_error_cases (bs : List TensorsDict) (combine : List Tensor → Option Tensor)
    (failMsg : String) (k : String) (e : String)
    (h : (match mapE (fun b => expectKey b k) bs with
          | Except.error e => Except.error e
          | Except.ok vs =>
            match combine vs with
            | some t => Except.ok (k, t)
            | none => Except.error failMsg) = Except.error e) :
    e = "KeyError" ∨ e = failMsg := by
  cases hmm : mapE (fun b => expectKey b k) bs with
  | error e2 =>
    rw [hmm] at h
    obtain ⟨b, _hb, hbk⟩ := mapE_error_mem _ _ _ hmm
    have he2 : e2 = "KeyError" := by
      rw [expectKey] at hbk
      cases hl : lookupKV b k with
      | some v => rw [hl] at hbk; exact absurd hbk (by simp)
      | none => rw [hl] at hbk; simpa using hbk.symm
    left
    have h3 : e2 = e := by simpa using h
    rw [← h3]
    exact he2
  | ok vs =>
    rw [hmm] at h
    have h2 : (match combine vs with
        | some t => Except.ok (k, t)
        | none => Except.error failMsg) = Except.error e := h
    cases hc : combine vs with
    | some t => rw [hc] at h2; exact absurd h2 (by simp)
    | none =>
      rw [hc] at h2
      right
      simpa using h2.symm

/-- C4.  For a non-empty sequence of bundles, `TensorsMixin.union` and
`TensorsMixin.stack` fail with the key-list assertion error — before building
any result dict — exactly when some bundle's ordered key list differs from
the first bundle's; under the identical-ordered-key-list precondition the
assertion branch is unreachable (any remaining failure is a torch error, not
the assertion). -/
theorem c4_keylist_assertion (first : TensorsDict) (rest : List TensorsDict) (dim : Nat) :
    (¬ (∀ b ∈ first :: rest, keysOf b = keysOf first) →
      TensorsMixin.union (first :: rest) dim = Except.error assertKeysMsg ∧
      TensorsMixin.stack (first :: rest) dim = Except.error assertKeysMsg) ∧
    ((∀ b ∈ first :: rest, keysOf b = keysOf first) →
      TensorsMixin.union (first :: rest) dim ≠ Except.error assertKeysMsg ∧
      TensorsMixin.stack (first :: rest) dim ≠ Except.error assertKeysMsg) := by
  constructor
  · intro hne
    exact ⟨by rw [TensorsMixin.union, if_neg hne], by rw [TensorsMixin.stack, if_neg hne]⟩
  · intro hal
    constructor
    · rw [TensorsMixin.union, if_pos hal]
      intro hcontra
      obtain ⟨k, _hk, hfk⟩ := mapE_error_mem _ _ _ hcontra
      rcases perkey_error_cases (first :: rest) (torchCat · dim) catFailMsg k
          assertKeysMsg hfk with h1 | h1
      · exact absurd h1 (by decide)
      · exact absurd h1 (by decide)
    · rw [TensorsMixin.stack, if_pos hal]
      intro hcontra
      obtain ⟨k, _hk, hfk⟩ := mapE_error_mem _ _ _ hcontra
      rcases perkey_error_cases (first :: rest) (torchStack · dim) stackFailMsg k
          assertKeysMsg hfk with h1 | h1
      · exact absurd h1 (by decide)
      · exact absurd h1 (by decide)

/-- Witness for C4 at a concrete input: two bundles whose key lists differ
(`x` vs `y`) make both `union` and `stack` fail with the assertion error. -/
theorem c4_witness :
    TensorsMixin.union [[("x", ⟨[2], Device.cpu, fun _ => 1⟩)],
        [("y", ⟨[2], Device.cpu, fun _ => 1⟩)]] 0 = Except.error assertKeysMsg ∧
    TensorsMixin.stack [[("x", ⟨[2], Device.cpu, fun _ => 1⟩)],
        [("y", ⟨[2], Device.cpu, fun _ => 1⟩)]] 0 = Except.error assertKeysMsg :=
  (c4_keylist_assertion [("x", ⟨[2], Device.cpu, fun _ => 1⟩)]
    [[("y", ⟨[2], Device.cpu, fun _ => 1⟩)]] 0).1
    (by
      intro hc
      have h2 := hc [("y", ⟨[2], Device.cpu, fun _ => 1⟩)]
        (List.mem_cons_of_mem _ (List.mem_cons_self _ _))
      simp [keysOf] at h2)

/-! ### C7: ListTensorsMixin.stack requires singleton lists -/

theorem forall₂_mem_left {R : α → β → Prop} {l1 : List α} {l2 : List β}
    (h : List.Forall₂ R l1 l2) (a : α) (ha : a ∈ l1) : ∃ b ∈ l2, R a b := by
  induction h with
  | nil => simp at ha
  | @cons x y l1t l2t hr _hrest ih =>
    rcases List.mem_cons.mp ha with h0 | h1
    · rw [h0]
      exact ⟨y, List.mem_cons_self _ _, h0 ▸ hr⟩
    · obtain ⟨b, hb, hrb⟩ := ih h1
      exact ⟨b, List.mem_cons_of_mem _ hb, hrb⟩

/-- C7.  Under the identical-key-list precondition, `ListTensorsMixin.stack`
fails with the singleton assertion as soon as any input's list for some key
does not have exactly one element; and on success `dict()[k]` is the list of
each input's single tensor for `k`, in input order. -/
theorem c7_list_stack_singleton (first : ListDict) (rest : List ListDict) (dim : Nat)
    (hkeys : ∀ b ∈ first :: rest, keysOf b = keysOf first) :
    ((∃ k ∈ keysOf first, ∃ b ∈ first :: rest, ∃ v, lookupKV b k = some v ∧ v.length ≠ 1) →
      ListTensorsMixin.stack (first :: rest) dim = Except.error singletonMsg) ∧
    (∀ r, ListTensorsMixin.stack (first :: rest) dim = Except.ok r →
      ∀ k (ts : List Tensor), k ∈ keysOf first →
        ts.length = (first :: rest).length →
        (∀ i (h1 : i < (first :: rest).length) (h2 : i < ts.length),
          lookupKV ((first :: rest).get ⟨i, h1⟩) k = some [ts.get ⟨i, h2⟩]) →
        lookupKV r k = some ts) := by
  have hinner : ∀ k ∈ keysOf first, ∃ vs,
      mapE (fun b => expectKey b k) (first :: rest) = Except.ok vs := by
    intro k hk
    apply mapE_isOk_of
    intro b hb
    obtain ⟨v, hv⟩ := lookupKV_isSome_of_mem_keys b k (by rw [hkeys b hb]; exact hk)
    exact ⟨v, by rw [expectKey, hv]⟩
  constructor
  · rintro ⟨k, hk, b, hb, v, hbv, hvlen⟩
    rw [ListTensorsMixin.stack, if_pos hkeys]
    have hmap : mapE (fun key =>
        match mapE (fun b => expectKey b key) (first :: rest) with
        | Except.error e => Except.error e
        | Except.ok vs =>
          if ∀ v ∈ vs, v.length = 1 then Except.ok (key, vs.flatten)
          else Except.error singletonMsg) (keysOf first) = Except.error singletonMsg := by
      apply mapE_first_error
      · intro key hkey
        obtain ⟨vs, hvs⟩ := hinner key hkey
        rw [hvs]
        by_cases hall : ∀ v ∈ vs, v.length = 1
        · refine Or.inl ⟨(key, vs.flatten), ?_⟩
          show (if ∀ v ∈ vs, v.length = 1 then Except.ok (key, vs.flatten)
              else Except.error singletonMsg) = Except.ok (key, vs.flatten)
          rw [if_pos hall]
        · refine Or.inr ?_
          show (if ∀ v ∈ vs, v.length = 1 then Except.ok (key, vs.flatten)
              else Except.error singletonMsg) = Except.error singletonMsg
          rw [if_neg hall]
      · refine ⟨k, hk, ?_⟩
        intro y hy
        obtain ⟨vs, hvs⟩ := hinner k hk
        rw [hvs] at hy
        have hvvs : v ∈ vs := by
          have hF := (mapE_eq_ok _ _ _).mp hvs
          obtain ⟨v2, hv2, hbv2⟩ := forall₂_mem_left hF b hb
          rw [expectKey, hbv] at hbv2
          have : v = v2 := by simpa using hbv2
          rw [this]
          exact hv2
        have hnall : ¬ ∀ v ∈ vs, v.length = 1 := by
          intro hall
          exact hvlen (hall v hvvs)
        have hy2 : (if ∀ v ∈ vs, v.length = 1 then Except.ok (k, vs.flatten)
            else Except.error singletonMsg) = Except.ok y := hy
        rw [if_neg hnall] at hy2
        exact absurd hy2 (by simp)
    rw [hmap]
  · intro r hok k ts hk hlen hpoint
    rw [ListTensorsMixin.stack, if_pos hkeys] at hok
    cases hraw : mapE (fun key =>
        match mapE (fun b => expectKey b key) (first :: rest) with
        | Except.error e => Except.error e
        | Except.ok vs =>
          if ∀ v ∈ vs, v.length = 1 then Except.ok (key, vs.flatten)
          else Except.error singletonMsg) (keysOf first) with
    | error e => rw [hraw] at hok; exact absurd hok (by simp)
    | ok raw =>
      rw [hraw] at hok
      have hok2 : ListTensorsMixin.postInit (toRVals raw) = Except.ok r := hok
      rw [postInit_toRVals] at hok2
      have hr : raw = r := by simpa using hok2
      rw [← hr]
      have hF := (mapE_eq_ok _ _ _).mp hraw
      have hfst : ∀ key (y : String × List Tensor),
          (match mapE (fun b => expectKey b key) (first :: rest) with
           | Except.error e => Except.error e
           | Except.ok vs =>
             if ∀ v ∈ vs, v.length = 1 then Except.ok (key, vs.flatten)
             else Except.error singletonMsg) = Except.ok y → y.1 = key := by
        intro key y hy
        cases hvs : mapE (fun b => expectKey b key) (first :: rest) with
        | error e => rw [hvs] at hy; exact absurd hy (by simp)
        | ok vs =>
          rw [hvs] at hy
          have hy2 : (if ∀ v ∈ vs, v.length = 1 then Except.ok (key, vs.flatten)
              else Except.error singletonMsg) = Except.ok y := hy
          by_cases hall : ∀ v ∈ vs, v.length = 1
          · rw [if_pos hall] at hy2
            have : (key, vs.flatten) = y := by simpa using hy2
            rw [← this]
          · rw [if_neg hall] at hy2
            exact absurd hy2 (by simp)
      obtain ⟨v, hfk, hlook⟩ := lookup_result_of_forall₂ _ _ _ hF hfst k hk
      have hvs2 : mapE (fun b => expectKey b k) (first :: rest)
          = Except.ok (ts.map (fun t => [t])) := by
        apply (mapE_eq_ok _ _ _).mpr
        apply List.forall₂_iff_get.mpr
        constructor
        · rw [List.length_map]
          exact hlen.symm
        · intro i h1 h2
          have h2' : i < ts.length := by
            rw [List.length_map] at h2
            exact h2
          rw [expectKey, hpoint i h1 (by rw [← hlen] at h1; exact h1)]
          simp [List.get_eq_getElem, List.getElem_map]
      rw [hvs2] at hfk
      have hall : ∀ v ∈ ts.map (fun t => [t]), v.length = 1 := by
        intro v hv
        obtain ⟨t, _ht, htv⟩ := List.mem_map.mp hv
        rw [← htv]
        rfl
      have hfk2 : (if ∀ v ∈ ts.map (fun t => [t]), v.length = 1 then
          Except.ok (k, (ts.map (fun t => [t])).flatten)
          else Except.error singletonMsg) = Except.ok (k, v) := hfk
      rw [if_pos hall] at hfk2
      have hveq : v = ts := by
        have h3 : (k, (ts.map (fun t => [t])).flatten) = (k, v) := by simpa using hfk2
        have h4 := congrArg Prod.snd h3
        simpa [flatten_map_single] using h4.symm
      rw [hlook, hveq]

/-- Witness for C7 at concrete inputs: a single bundle whose field `x` holds
a two-element list makes `stack` raise the singleton assertion, while two
bundles with one-element lists stack into the two-tensor list. -/
theorem c7_witness :
    ListTensorsMixin.stack
        [[("x", [⟨[1], Device.cpu, fun _ => 1⟩, ⟨[1], Device.cpu, fun _ => 2⟩])]] 0
      = Except.error singletonMsg ∧
    lookupKV [("x", [(⟨[1], Device.cpu, fun _ => 1⟩ : Tensor),
        ⟨[1], Device.cpu, fun _ => 2⟩])] "x"
      = some [⟨[1], Device.cpu, fun _ => 1⟩, ⟨[1], Device.cpu, fun _ => 2⟩] := by
  constructor
  · exact (c7_list_stack_singleton
      [("x", [⟨[1], Device.cpu, fun _ => 1⟩, ⟨[1], Device.cpu, fun _ => 2⟩])] [] 0
      (by
        intro b hb
        rcases List.mem_cons.mp hb with h0 | h1
        · rw [h0]
        · simp at h1)).1
      ⟨"x", by decide,
       [("x", [⟨[1], Device.cpu, fun _ => 1⟩, ⟨[1], Device.cpu, fun _ => 2⟩])],
       List.mem_cons_self _ _,
       [⟨[1], Device.cpu, fun _ => 1⟩, ⟨[1], Device.cpu, fun _ => 2⟩], rfl, by decide⟩
  · exact (c7_list_stack_singleton
      [("x", [⟨[1], Device.cpu, fun _ => 1⟩])]
      [[("x", [⟨[1], Device.cpu, fun _ => 2⟩])]] 0
      (by
        intro b hb
        rcases List.mem_cons.mp hb with h0 | h1
        · rw [h0]
        · rcases List.mem_cons.mp h1 with h2 | h3
          · rw [h2]; rfl
          · simp at h3)).2
      [("x", [⟨[1], Device.cpu, fun _ => 1⟩, ⟨[1], Device.cpu, fun _ => 2⟩])] rfl
      "x" [⟨[1], Device.cpu, fun _ => 1⟩, ⟨[1], Device.cpu, fun _ => 2⟩]
      (by decide) rfl
      (by
        intro i h1 h2
        cases i with
        | zero => rfl
        | succ n =>
          cases n with
          | zero => rfl
          | succ m => exact absurd h1 (by simp))

/-! ### C1: union concatenates per key -/

theorem match_cat_ok (mres : Except String (List Tensor))
    (combine : List Tensor → Option Tensor) (failMsg k : String) (y : String × Tensor)
    (h : (match mres with
          | Except.error e => Except.error e
          | Except.ok vs =>
            match combine vs with
            | some t => Except.ok (k, t)
            | none => Except.error failMsg) = Except.ok y) :
    ∃ vs t, mres = Except.ok vs ∧ combine vs = some t ∧ y = (k, t) := by
  cases mres with
  | error e =>
    have h2 : (Except.error e : Except String (String × Tensor)) = Except.ok y := h
    exact absurd h2 (by simp)
  | ok vs =>
    have h2 : (match combine vs with
        | some t => Except.ok (k, t)
        | none => Except.error failMsg) = Except.ok y := h
    cases hc : combine vs with
    | some t =>
      rw [hc] at h2
      have h3 : Except.ok (k, t) = Except.ok (ε := String) y := h2
      exact ⟨vs, t, rfl, hc, by simpa using h3.symm⟩
    | none =>
      rw [hc] at h2
      have h3 : Except.error (α := String × Tensor) failMsg = Except.ok y := h2
      exact absurd h3 (by simp)

theorem match_flatten_ok (mres : Except String (List (List Tensor)))
    (k : String) (y : String × List Tensor)
    (h : (match mres with
          | Except.error e => Except.error e
          | Except.ok vs => Except.ok (k, vs.flatten)) = Except.ok y) :
    ∃ vs, mres = Except.ok vs ∧ y = (k, vs.flatten) := by
  cases mres with
  | error e =>
    have h2 : (Except.error e : Except String (String × List Tensor)) = Except.ok y := h
    exact absurd h2 (by simp)
  | ok vs =>
    have h2 : Except.ok (k, vs.flatten) = Except.ok (ε := String) y := h
    exact ⟨vs, rfl, by simpa using h2.symm⟩

theorem mapE_pair (f : α → Except String β) (x y : α) (bx bz : β)
    (hx : f x = Except.ok bx) (hy : f y = Except.ok bz) :
    mapE f [x, y] = Except.ok [bx, bz] := by
  simp [mapE, hx, hy]

theorem dictKV_inr_iff (c : CombineDict) (k : String) (l : List Tensor) :
    CombineTensorsMixin.dictKV c k = some (Sum.inr l) ↔
      lookupKV c.list_tensors k = some l := by
  rw [CombineTensorsMixin.dictKV]
  cases hl : lookupKV c.list_tensors k with
  | some v => simp
  | none =>
    cases ht : lookupKV c.tensors k with
    | some t => simp [ht]
    | none => simp [ht]

theorem dictKV_inl_iff (c : CombineDict) (k : String) (a : Tensor) :
    CombineTensorsMixin.dictKV c k = some (Sum.inl a) ↔
      lookupKV c.list_tensors k = none ∧ lookupKV c.tensors k = some a := by
  rw [CombineTensorsMixin.dictKV]
  cases hl : lookupKV c.list_tensors k with
  | some v => simp
  | none =>
    cases ht : lookupKV c.tensors k with
    | some t => simp [ht]
    | none => simp [ht]

/-- C1.  For containers `A`, `B` whose halves have identical ordered key
lists, `union(A, B).dict()[k]` is the concatenation of `A.dict()[k]` and
`B.dict()[k]` for every key `k`: `torch.cat` along the given dim for
single-tensor fields and list concatenation (A's elements first) for
list-tensor fields, on all three mixins. -/
theorem c1_union_is_concatenation :
    (∀ (A B : TensorsDict) (dim : Nat) (r : TensorsDict),
      TensorsMixin.union [A, B] dim = Except.ok r →
      ∀ k a b, lookupKV A k = some a → lookupKV B k = some b →
        ∃ c, torchCat [a, b] dim = some c ∧ lookupKV r k = some c) ∧
    (∀ (A B : ListDict) (dim : Nat) (r : ListDict),
      ListTensorsMixin.union [A, B] dim = Except.ok r →
      ∀ k la lb, lookupKV A k = some la → lookupKV B k = some lb →
        lookupKV r k = some (la ++ lb)) ∧
    (∀ (A B : CombineDict) (dim : Nat) (r : CombineDict),
      CombineTensorsMixin.union [A, B] dim = Except.ok r →
      ∀ k,
        (∀ la lb, CombineTensorsMixin.dictKV A k = some (Sum.inr la) →
          CombineTensorsMixin.dictKV B k = some (Sum.inr lb) →
          CombineTensorsMixin.dictKV r k = some (Sum.inr (la ++ lb))) ∧
        (∀ a b, CombineTensorsMixin.dictKV A k = some (Sum.inl a) →
          CombineTensorsMixin.dictKV B k = some (Sum.inl b) →
          ∃ c, torchCat [a, b] dim = some c ∧
            CombineTensorsMixin.dictKV r k = some (Sum.inl c))) := by
  refine ⟨?_, ?_, ?_⟩
  · intro A B dim r hok k a b ha hb
    rw [TensorsMixin.union] at hok
    by_cases hcond : ∀ bb ∈ [A, B], keysOf bb = keysOf A
    · rw [if_pos hcond] at hok
      have hF := (mapE_eq_ok _ _ _).mp hok
      have hfst : ∀ (key : String) (y : String × Tensor),
          (match mapE (fun bb => expectKey bb key) [A, B] with
           | Except.error e => Except.error e
           | Except.ok vs =>
             match torchCat vs dim with
             | some t => Except.ok (key, t)
             | none => Except.error catFailMsg) = Except.ok y → y.1 = key := by
        intro key y hy
        obtain ⟨vs, t, _, _, hyt⟩ := match_cat_ok _ _ _ _ _ hy
        rw [hyt]
      obtain ⟨v, hfk, hlook⟩ := lookup_result_of_forall₂ _ _ _ hF hfst k
        (mem_keysOf_of_lookupKV _ _ _ ha)
      obtain ⟨vs, t, hvs, hct, hyt⟩ := match_cat_ok _ _ _ _ _ hfk
      have hvt : v = t := by simpa using congrArg Prod.snd hyt
      have hvs2 : mapE (fun bb => expectKey bb k) [A, B] = Except.ok [a, b] :=
        mapE_pair _ _ _ _ _ (by rw [expectKey, ha]) (by rw [expectKey, hb])
      have hvab : vs = [a, b] := by
        rw [hvs] at hvs2
        simpa using hvs2
      refine ⟨t, ?_, ?_⟩
      · rw [← hvab]
        exact hct
      · rw [hlook, hvt]
    · rw [if_neg hcond] at hok
      exact absurd hok (by simp)
  · intro A B dim r hok k la lb ha hb
    rw [ListTensorsMixin.union] at hok
    by_cases hcond : ∀ bb ∈ [A, B], keysOf bb = keysOf A
    · rw [if_pos hcond] at hok
      cases hraw : mapE (fun key =>
          match mapE (fun bb => expectKey bb key) [A, B] with
          | Except.error e => Except.error e
          | Except.ok vs => Except.ok (key, vs.flatten)) (keysOf A) with
      | error e =>
        rw [hraw] at hok
        have h2 : Except.error (α := ListDict) e = Except.ok r := hok
        exact absurd h2 (by simp)
      | ok raw =>
        rw [hraw] at hok
        have hok2 : ListTensorsMixin.postInit (toRVals raw) = Except.ok r := hok
        rw [postInit_toRVals] at hok2
        have hr : raw = r := by simpa using hok2
        have hF := (mapE_eq_ok _ _ _).mp hraw
        have hfst : ∀ (key : String) (y : String × List Tensor),
            (match mapE (fun bb => expectKey bb key) [A, B] with
             | Except.error e => Except.error e
             | Except.ok vs => Except.ok (key, vs.flatten)) = Except.ok y →
            y.1 = key := by
          intro key y hy
          obtain ⟨vs, _, hyt⟩ := match_flatten_ok _ _ _ hy
          rw [hyt]
        obtain ⟨v, hfk, hlook⟩ := lookup_result_of_forall₂ _ _ _ hF hfst k
          (mem_keysOf_of_lookupKV _ _ _ ha)
        obtain ⟨vs, hvs, hyt⟩ := match_flatten_ok _ _ _ hfk
        have hvs2 : mapE (fun bb => expectKey bb k) [A, B] = Except.ok [la, lb] :=
          mapE_pair _ _ _ _ _ (by rw [expectKey, ha]) (by rw [expectKey, hb])
        have hvab : vs = [la, lb] := by
          rw [hvs] at hvs2
          simpa using hvs2
        have hv : v = la ++ lb := by
          have h4 := congrArg Prod.snd hyt
          simpa [hvab] using h4
        rw [← hr, hlook, hv]
    · rw [if_neg hcond] at hok
      exact absurd hok (by simp)
  · intro A B dim r hok k
    rw [CombineTensorsMixin.union] at hok
    by_cases hcond : (∀ bb ∈ [A, B], keysOf bb.tensors = keysOf A.tensors) ∧
        (∀ bb ∈ [A, B], keysOf bb.list_tensors = keysOf A.list_tensors)
    · rw [if_pos hcond] at hok
      cases hnt : mapE (fun key =>
          match mapE (fun bb => expectKey bb.tensors key) [A, B] with
          | Except.error e => Except.error e
          | Except.ok vs =>
            match torchCat vs dim with
            | some t => Except.ok (key, t)
            | none => Except.error catFailMsg) (keysOf A.tensors) with
      | error e =>
        rw [hnt] at hok
        have h2 : Except.error (α := CombineDict) e = Except.ok r := hok
        exact absurd h2 (by simp)
      | ok nt =>
        rw [hnt] at hok
        have hok2 : (match mapE (fun key =>
            match mapE (fun bb => expectKey bb.list_tensors key) [A, B] with
            | Except.error e => Except.error e
            | Except.ok vs => Except.ok (key, vs.flatten)) (keysOf A.list_tensors) with
          | Except.error e => Except.error e
          | Except.ok new_list_tensors =>
            match ListTensorsMixin.postInit (toRVals new_list_tensors) with
            | Except.error e => Except.error e
            | Except.ok nl => Except.ok (⟨nt, nl⟩ : CombineDict)) = Except.ok r := hok
        cases hnl : mapE (fun key =>
            match mapE (fun bb => expectKey bb.list_tensors key) [A, B] with
            | Except.error e => Except.error e
            | Except.ok vs => Except.ok (key, vs.flatten)) (keysOf A.list_tensors) with
        | error e =>
          rw [hnl] at hok2
          have h2 : Except.error (α := CombineDict) e = Except.ok r := hok2
          exact absurd h2 (by simp)
        | ok nl =>
          rw [hnl] at hok2
          have hok3 : (match ListTensorsMixin.postInit (toRVals nl) with
            | Except.error e => Except.error e
            | Except.ok nl2 => Except.ok (⟨nt, nl2⟩ : CombineDict)) = Except.ok r := hok2
          rw [postInit_toRVals] at hok3
          have hr : r = ⟨nt, nl⟩ := by
            have h4 : Except.ok (ε := String) (⟨nt, nl⟩ : CombineDict) = Except.ok r := hok3
            simpa using h4.symm
          have hFt := (mapE_eq_ok _ _ _).mp hnt
          have hFl := (mapE_eq_ok _ _ _).mp hnl
          have hfstl : ∀ (key : String) (y : String × List Tensor),
              (match mapE (fun bb => expectKey bb.list_tensors key) [A, B] with
               | Except.error e => Except.error e
               | Except.ok vs => Except.ok (key, vs.flatten)) = Except.ok y →
              y.1 = key := by
            intro key y hy
            obtain ⟨vs, _, hyt⟩ := match_flatten_ok _ _ _ hy
            rw [hyt]
          have hkeysnl : keysOf nl = keysOf A.list_tensors :=
            keysOf_of_forall₂ _ _ _ hFl hfstl
          constructor
          · intro la lb hA hB
            have hAl := (dictKV_inr_iff A k la).mp hA
            have hBl := (dictKV_inr_iff B k lb).mp hB
            obtain ⟨v, hfk, hlook⟩ := lookup_result_of_forall₂ _ _ _ hFl hfstl k
              (mem_keysOf_of_lookupKV _ _ _ hAl)
            obtain ⟨vs, hvs, hyt⟩ := match_flatten_ok _ _ _ hfk
            have hvs2 : mapE (fun bb => expectKey bb.list_tensors k) [A, B]
                = Except.ok [la, lb] :=
              mapE_pair _ _ _ _ _ (by rw [expectKey, hAl]) (by rw [expectKey, hBl])
            have hvab : vs = [la, lb] := by
              rw [hvs] at hvs2
              simpa using hvs2
            have hv : v = la ++ lb := by
              have h4 := congrArg Prod.snd hyt
              simpa [hvab] using h4
            rw [hr]
            apply (dictKV_inr_iff _ _ _).mpr
            show lookupKV nl k = some (la ++ lb)
            rw [hlook, hv]
          · intro a b hA hB
            obtain ⟨hAnone, hAt⟩ := (dictKV_inl_iff A k a).mp hA
            obtain ⟨_hBnone, hBt⟩ := (dictKV_inl_iff B k b).mp hB
            have hfstt : ∀ (key : String) (y : String × Tensor),
                (match mapE (fun bb => expectKey bb.tensors key) [A, B] with
                 | Except.error e => Except.error e
                 | Except.ok vs =>
                   match torchCat vs dim with
                   | some t => Except.ok (key, t)
                   | none => Except.error catFailMsg) = Except.ok y → y.1 = key := by
              intro key y hy
              obtain ⟨vs, t, _, _, hyt⟩ := match_cat_ok _ _ _ _ _ hy
              rw [hyt]
            obtain ⟨v, hfk, hlook⟩ := lookup_result_of_forall₂ _ _ _ hFt hfstt k
              (mem_keysOf_of_lookupKV _ _ _ hAt)
            obtain ⟨vs, t, hvs, hct, hyt⟩ := match_cat_ok _ _ _ _ _ hfk
            have hvt : v = t := by simpa using congrArg Prod.snd hyt
            have hvs2 : mapE (fun bb => expectKey bb.tensors k) [A, B]
                = Except.ok [a, b] :=
              mapE_pair _ _ _ _ _ (by rw [expectKey, hAt]) (by rw [expectKey, hBt])
            have hvab : vs = [a, b] := by
              rw [hvs] at hvs2
              simpa using hvs2
            refine ⟨t, by rw [← hvab]; exact hct, ?_⟩
            rw [hr, CombineTensorsMixin.dictKV]
            have hknl : lookupKV nl k = none := by
              apply lookupKV_eq_none_of_not_mem
              rw [hkeysnl]
              intro hmem
              obtain ⟨v2, hv2⟩ := lookupKV_isSome_of_mem_keys _ _ hmem
              rw [hAnone] at hv2
              exact absurd hv2 (by simp)
            show (match lookupKV nl k with
              | some l => some (Sum.inr l)
              | none => (lookupKV nt k).map Sum.inl) = some (Sum.inl t)
            rw [hknl, hlook, hvt]
            rfl
    · rw [if_neg hcond] at hok
      exact absurd hok (by simp)

/-- Concrete bundles used by the C1 witness. -/
def c1A : TensorsDict := [("x", ⟨[2], Device.cpu, fun _ => 1⟩)]

def c1B : TensorsDict := [("x", ⟨[3], Device.cpu, fun _ => 2⟩)]

def c1r : TensorsDict := (TensorsMixin.union [c1A, c1B] 0).toOption.getD []

def c1LA : ListDict := [("y", [⟨[2], Device.cpu, fun _ => 3⟩])]

def c1LB : ListDict := [("y", [⟨[2], Device.cpu, fun _ => 4⟩])]

def c1lr : ListDict := (ListTensorsMixin.union [c1LA, c1LB] 0).toOption.getD []

def c1CA : CombineDict := ⟨c1A, c1LA⟩

def c1CB : CombineDict := ⟨c1B, c1LB⟩

def c1cr : CombineDict :=
  (CombineTensorsMixin.union [c1CA, c1CB] 0).toOption.getD ⟨[], []⟩

/-- Witness for C1 at concrete inputs: a shape-(2) and a shape-(3) tensor
under key `x` concatenate along dim 0, one-element lists under key `y`
concatenate as lists, on the plain mixins and on the combined mixin. -/
theorem c1_witness :
    (TensorsMixin.union [c1A, c1B] 0 = Except.ok c1r ∧
      ∃ c, torchCat [⟨[2], Device.cpu, fun _ => 1⟩,
          ⟨[3], Device.cpu, fun _ => 2⟩] 0 = some c ∧ lookupKV c1r "x" = some c) ∧
    (ListTensorsMixin.union [c1LA, c1LB] 0 = Except.ok c1lr ∧
      lookupKV c1lr "y" = some ([⟨[2], Device.cpu, fun _ => 3⟩]
        ++ [⟨[2], Device.cpu, fun _ => 4⟩])) ∧
    (CombineTensorsMixin.union [c1CA, c1CB] 0 = Except.ok c1cr ∧
      CombineTensorsMixin.dictKV c1cr "y" = some (Sum.inr
        ([⟨[2], Device.cpu, fun _ => 3⟩] ++ [⟨[2], Device.cpu, fun _ => 4⟩])) ∧
      ∃ c, torchCat [⟨[2], Device.cpu, fun _ => 1⟩,
          ⟨[3], Device.cpu, fun _ => 2⟩] 0 = some c ∧
        CombineTensorsMixin.dictKV c1cr "x" = some (Sum.inl c)) :=
  ⟨⟨rfl, c1_union_is_concatenation.1 c1A c1B 0 c1r rfl "x" _ _ rfl rfl⟩,
   ⟨rfl, c1_union_is_concatenation.2.1 c1LA c1LB 0 c1lr rfl "y" _ _ rfl rfl⟩,
   ⟨rfl,
    (c1_union_is_concatenation.2.2 c1CA c1CB 0 c1cr rfl "y").1 _ _ rfl rfl,
    (c1_union_is_concatenation.2.2 c1CA c1CB 0 c1cr rfl "x").2 _ _ rfl rfl⟩⟩

/-! ### C6: stack followed by slicing recovers the inputs -/

theorem getAt_eq_get (l : List α) (i : Nat) (d : α) (h : i < l.length) :
    getAt l i d = l.get ⟨i, h⟩ := by
  induction l generalizing i with
  | nil => simp at h
  | cons b t ih =>
    cases i with
    | zero => rfl
    | succ n => exact ih n (by simpa using h)

/-- C6.  For a non-empty sequence of TensorBundles successfully stacked along
`dim`, slicing the result along the new axis at index `i` recovers, for every
key, exactly the `i`-th input bundle's tensor (equality in the sense of
`torch.equal`: same shape, device and entries). -/
theorem c6_stack_slice_roundtrip (first : TensorsDict) (rest : List TensorsDict)
    (dim : Nat) (r : TensorsDict)
    (hok : TensorsMixin.stack (first :: rest) dim = Except.ok r) :
    ∀ i (hi : i < (first :: rest).length) (k : String) (ti : Tensor),
      lookupKV ((first :: rest).get ⟨i, hi⟩) k = some ti →
      ∃ t, lookupKV r k = some t ∧ Tensor.teq (t.select dim i) ti := by
  intro i hi k ti hlookup
  rw [TensorsMixin.stack] at hok
  by_cases hcond : ∀ b ∈ first :: rest, keysOf b = keysOf first
  · rw [if_pos hcond] at hok
    have hF := (mapE_eq_ok _ _ _).mp hok
    have hfst : ∀ (key : String) (y : String × Tensor),
        (match mapE (fun b => expectKey b key) (first :: rest) with
         | Except.error e => Except.error e
         | Except.ok vs =>
           match torchStack vs dim with
           | some t => Except.ok (key, t)
           | none => Except.error stackFailMsg) = Except.ok y → y.1 = key := by
      intro key y hy
      obtain ⟨vs, t, _, _, hyt⟩ := match_cat_ok _ _ _ _ _ hy
      rw [hyt]
    have hk : k ∈ keysOf first := by
      rw [← hcond ((first :: rest).get ⟨i, hi⟩) (List.get_mem _ _ _)]
      exact mem_keysOf_of_lookupKV _ _ _ hlookup
    obtain ⟨v, hfk, hlook⟩ := lookup_result_of_forall₂ _ _ _ hF hfst k hk
    obtain ⟨vs, t, hvs, hst, hyt⟩ := match_cat_ok _ _ _ _ _ hfk
    have hvt : v = t := by simpa using congrArg Prod.snd hyt
    have hFvs := (mapE_eq_ok _ _ _).mp hvs
    obtain ⟨hlen, hget⟩ := List.forall₂_iff_get.mp hFvs
    have hi2 : i < vs.length := by rw [← hlen]; exact hi
    have hvsi : vs.get ⟨i, hi2⟩ = ti := by
      have h5 := hget i hi hi2
      rw [expectKey, hlookup] at h5
      simpa using h5.symm
    refine ⟨t, by rw [hlook, hvt], ?_⟩
    have h6 := select_torchStack vs dim t hst i hi2
    rw [getAt_eq_get vs i Tensor.dfl hi2, hvsi] at h6
    exact h6
  · rw [if_neg hcond] at hok
    exact absurd hok (by simp)

/-- Concrete bundles used by the C6 witness. -/
def c6A : TensorsDict := [("x", ⟨[2], Device.cpu, fun _ => 7⟩)]

def c6B : TensorsDict := [("x", ⟨[2], Device.cpu, fun _ => 8⟩)]

def c6r : TensorsDict := (TensorsMixin.stack [c6A, c6B] 0).toOption.getD []

/-- Witness for C6 at a concrete input: stacking two shape-(2) bundles along
dim 0 and selecting index 1 of the new axis recovers the second bundle's
tensor. -/
theorem c6_witness :
    TensorsMixin.stack [c6A, c6B] 0 = Except.ok c6r ∧
    ∃ t, lookupKV c6r "x" = some t ∧
      Tensor.teq (t.select 0 1) ⟨[2], Device.cpu, fun _ => 8⟩ :=
  ⟨rfl, c6_stack_slice_roundtrip c6A [c6B] 0 c6r rfl 1 (by decide) "x" _ rfl⟩

/-! ### C10: CombineTensorsMixin.stack never yields list-tensor fields -/

theorem forall₂_mem_right {R : α → β → Prop} {l1 : List α} {l2 : List β}
    (h : List.Forall₂ R l1 l2) (b : β) (hb : b ∈ l2) : ∃ a ∈ l1, R a b := by
  induction h with
  | nil => simp at hb
  | @cons x y l1t l2t hr _hrest ih =>
    rcases List.mem_cons.mp hb with h0 | h1
    · rw [h0]
      exact ⟨x, List.mem_cons_self _ _, h0 ▸ hr⟩
    · obtain ⟨a, ha, hra⟩ := ih h1
      exact ⟨a, List.mem_cons_of_mem _ ha, hra⟩

/-- C10.  For a non-empty sequence of combined bundles with matching key
lists in which at least one list-tensor field holds a non-empty list,
`CombineTensorsMixin.stack` never produces a container: it hands the
per-bundle lists unflattened (a list of lists) to the constructor, whose
`ListTensorsMixin.__post_init__` element-type assertion rejects the inner
lists; when the single-tensor half is empty the failure is exactly that
assertion. -/
theorem c10_combine_stack_always_fails (first : CombineDict)
    (rest : List CombineDict) (dim : Nat)
    (htk : ∀ b ∈ first :: rest, keysOf b.tensors = keysOf first.tensors)
    (hlk : ∀ b ∈ first :: rest, keysOf b.list_tensors = keysOf first.list_tensors)
    (hbad : ∃ k ∈ keysOf first.list_tensors, ∃ b ∈ first :: rest, ∃ v,
      lookupKV b.list_tensors k = some v ∧ v ≠ []) :
    (∃ e, CombineTensorsMixin.stack (first :: rest) dim = Except.error e) ∧
    (keysOf first.tensors = [] →
      CombineTensorsMixin.stack (first :: rest) dim = Except.error elementMsg) := by
  obtain ⟨k, hk, _b, _hb, _v, _hbv, _hvne⟩ := hbad
  have hperkey : ∀ key ∈ keysOf first.list_tensors, ∃ vs,
      mapE (fun b => expectKey b.list_tensors key) (first :: rest) = Except.ok vs ∧
        vs ≠ [] := by
    intro key hkey
    obtain ⟨vs, hvs⟩ := mapE_isOk_of (fun b => expectKey b.list_tensors key)
      (first :: rest) (fun b hb => by
        obtain ⟨v2, hv2⟩ := lookupKV_isSome_of_mem_keys b.list_tensors key
          (by rw [hlk b hb]; exact hkey)
        exact ⟨v2, by simp [expectKey, hv2]⟩)
    refine ⟨vs, hvs, ?_⟩
    have hlen := ((mapE_eq_ok _ _ _).mp hvs).length_eq
    intro he
    rw [he] at hlen
    simp at hlen
  have hraw : ∃ raw, mapE (fun key =>
      match mapE (fun b => expectKey b.list_tensors key) (first :: rest) with
      | Except.error e => Except.error e
      | Except.ok vs =>
        Except.ok (key, RVal.rl (vs.map (fun l => RVal.rl (l.map RVal.rt)))))
      (keysOf first.list_tensors) = Except.ok raw := by
    apply mapE_isOk_of
    intro key hkey
    obtain ⟨vs, hvs, _⟩ := hperkey key hkey
    exact ⟨(key, RVal.rl (vs.map (fun l => RVal.rl (l.map RVal.rt)))), by rw [hvs]⟩
  obtain ⟨raw, hrawE⟩ := hraw
  have hFraw := (mapE_eq_ok _ _ _).mp hrawE
  have hrawne : raw ≠ [] := by
    have hlen := hFraw.length_eq
    intro he
    rw [he] at hlen
    simp at hlen
    rw [hlen] at hk
    simp at hk
  have hentry : ∀ y ∈ raw,
      (match postInitVal y.2 with
       | Except.error e => Except.error e
       | Except.ok ts => Except.ok (y.1, ts)) = Except.error elementMsg := by
    intro y hy
    obtain ⟨key, hkey, hfky⟩ := forall₂_mem_right hFraw y hy
    obtain ⟨vs, hvs, hvsne⟩ := hperkey key hkey
    rw [hvs] at hfky
    have hfky2 : Except.ok (ε := String)
        (key, RVal.rl (vs.map (fun l => RVal.rl (l.map RVal.rt)))) = Except.ok y := hfky
    have hy2 : y = (key, RVal.rl (vs.map (fun l => RVal.rl (l.map RVal.rt)))) := by
      simpa using hfky2.symm
    rw [hy2]
    cases vs with
    | nil => exact absurd rfl hvsne
    | cons v0 vtl => rfl
  have hpost : ListTensorsMixin.postInit raw = Except.error elementMsg := by
    apply mapE_first_error
    · intro y hy
      exact Or.inr (hentry y hy)
    · cases raw with
      | nil => exact absurd rfl hrawne
      | cons y0 rawtl =>
        refine ⟨y0, List.mem_cons_self _ _, ?_⟩
        intro z hz
        rw [hentry y0 (List.mem_cons_self _ _)] at hz
        exact absurd hz (by simp)
  have hlist : (match mapE (fun key =>
      match mapE (fun b => expectKey b.list_tensors key) (first :: rest) with
      | Except.error e => Except.error e
      | Except.ok vs =>
        Except.ok (key, RVal.rl (vs.map (fun l => RVal.rl (l.map RVal.rt)))))
      (keysOf first.list_tensors) with
    | Except.error e => Except.error e
    | Except.ok raw2 =>
      match ListTensorsMixin.postInit raw2 with
      | Except.error e => Except.error e
      | Except.ok nl => Except.ok (⟨[], nl⟩ : CombineDict)) = Except.error elementMsg := by
    rw [hrawE]
    show (match ListTensorsMixin.postInit raw with
      | Except.error e => Except.error e
      | Except.ok nl => Except.ok (⟨[], nl⟩ : CombineDict)) = Except.error elementMsg
    rw [hpost]
  constructor
  · cases hnt : mapE (fun key =>
        match mapE (fun b => expectKey b.tensors key) (first :: rest) with
        | Except.error e => Except.error e
        | Except.ok vs =>
          match torchStack vs dim with
          | some t => Except.ok (key, t)
          | none => Except.error stackFailMsg) (keysOf first.tensors) with
    | error e =>
      refine ⟨e, ?_⟩
      rw [CombineTensorsMixin.stack, if_pos ⟨htk, hlk⟩, hnt]
    | ok nt =>
      refine ⟨elementMsg, ?_⟩
      rw [CombineTensorsMixin.stack, if_pos ⟨htk, hlk⟩, hnt]
      show (match mapE (fun key =>
          match mapE (fun b => expectKey b.list_tensors key) (first :: rest) with
          | Except.error e => Except.error e
          | Except.ok vs =>
            Except.ok (key, RVal.rl (vs.map (fun l => RVal.rl (l.map RVal.rt)))))
          (keysOf first.list_tensors) with
        | Except.error e => Except.error e
        | Except.ok raw2 =>
          match ListTensorsMixin.postInit raw2 with
          | Except.error e => Except.error e
          | Except.ok nl => Except.ok (⟨nt, nl⟩ : CombineDict)) = Except.error elementMsg
      rw [hrawE]
      show (match ListTensorsMixin.postInit raw with
        | Except.error e => Except.error e
        | Except.ok nl => Except.ok (⟨nt, nl⟩ : CombineDict)) = Except.error elementMsg
      rw [hpost]
  · intro hte
    rw [CombineTensorsMixin.stack, if_pos ⟨htk, hlk⟩, hte]
    exact hlist

/-- Witness for C10 at a concrete input: a single combined bundle with no
single-tensor fields and one list field `y` holding one tensor; `stack`
fails with the element-type assertion from `__post_init__`. -/
theorem c10_witness :
    (∃ e, CombineTensorsMixin.stack
        [⟨[], [("y", [⟨[1], Device.cpu, fun _ => 1⟩])]⟩] 0 = Except.error e) ∧
    CombineTensorsMixin.stack
        [⟨[], [("y", [⟨[1], Device.cpu, fun _ => 1⟩])]⟩] 0
      = Except.error elementMsg := by
  have h := c10_combine_stack_always_fails
    ⟨[], [("y", [⟨[1], Device.cpu, fun _ => 1⟩])]⟩ [] 0
    (by
      intro b hb
      rcases List.mem_cons.mp hb with h0 | h1
      · rw [h0]
      · simp at h1)
    (by
      intro b hb
      rcases List.mem_cons.mp hb with h0 | h1
      · rw [h0]
      · simp at h1)
    ⟨"y", by decide, ⟨[], [("y", [⟨[1], Device.cpu, fun _ => 1⟩])]⟩,
      List.mem_cons_self _ _, [⟨[1], Device.cpu, fun _ => 1⟩], rfl, by simp⟩
  exact ⟨h.1, h.2 rfl⟩

/-! ### C5: generate repacks into a fixed-width zero-padded buffer -/

theorem cube_ok (B n : Nat) (rows : List (List Int))
    (rowfn : List Int → Except String (List Int)) (g : List Int → List Int)
    (hn : 0 < n) (hlen : rows.length = B * n)
    (h : ∀ row ∈ rows, rowfn row = Except.ok (g row)) :
    mapE (fun grp => mapE rowfn grp) (chunked n rows)
      = Except.ok ((chunked n rows).map (List.map g)) := by
  obtain ⟨_, _, hflat⟩ := chunked_props B n rows hn hlen
  apply mapE_ok_of_fn
  intro grp hgrp
  apply mapE_ok_of_fn
  intro row hrow
  apply h
  rw [← hflat]
  exact List.mem_flatten.mpr ⟨grp, hgrp, hrow⟩

/-- C5.  Both generation wrappers repack the decoder output (a
`(B*num_return_sequences, L)` token matrix of uniform row width `L`) into a
buffer of last-dimension width exactly `max_gen_seq_length`: each output row
is the produced tokens — with the length-`input_seq_length` prompt prefix
dropped for ChatGLM — copied in at position 0 followed by zeros, reshaped to
`(B, max_gen_seq_length)` when `num_return_sequences = 1` and to
`(B, num_return_sequences, max_gen_seq_length)` otherwise. -/
theorem c5_generate_fixed_width (B nrs inputLen maxGen L : Nat)
    (rows : List (List Int)) (hB : 0 < B) (hnrs : 0 < nrs)
    (hrows : rows.length = B * nrs) (hwidth : ∀ row ∈ rows, row.length = L)
    (hinput : inputLen ≤ L) :
    (L ≤ maxGen + inputLen →
      chatglmRepack nrs inputLen maxGen rows = Except.ok
        (if nrs = 1 then
          GenResult.two (rows.map (fun row =>
            row.drop inputLen ++ List.replicate (maxGen - (L - inputLen)) 0))
        else
          GenResult.three ((chunked nrs rows).map (List.map (fun row =>
            row.drop inputLen ++ List.replicate (maxGen - (L - inputLen)) 0)))) ∧
      (∀ row ∈ rows, (row.drop inputLen
          ++ List.replicate (maxGen - (L - inputLen)) (0 : Int)).length = maxGen) ∧
      (chunked nrs rows).length = B ∧
      (∀ grp ∈ chunked nrs rows, grp.length = nrs) ∧
      (nrs = 1 → (rows.map (fun row =>
          row.drop inputLen ++ List.replicate (maxGen - (L - inputLen)) (0 : Int))).length
        = B)) ∧
    (L ≤ maxGen →
      xprophetnetRepack nrs maxGen rows = Except.ok
        (if nrs = 1 then
          GenResult.two (rows.map (fun row => row ++ List.replicate (maxGen - L) 0))
        else
          GenResult.three ((chunked nrs rows).map (List.map (fun row =>
            row ++ List.replicate (maxGen - L) 0)))) ∧
      (∀ row ∈ rows, (row ++ List.replicate (maxGen - L) (0 : Int)).length = maxGen)) := by
  have hne : rows ≠ [] := by
    intro he
    rw [he] at hrows
    simp at hrows
    have hpos : 0 < B * nrs := Nat.mul_pos hB hnrs
    omega
  have hL : (rows.headD []).length = L := by
    cases rows with
    | nil => exact absurd rfl hne
    | cons r0 rl => exact hwidth r0 (List.mem_cons_self _ _)
  have hmod : rows.length % nrs = 0 := by
    rw [hrows]
    exact Nat.mul_mod_left B nrs
  obtain ⟨hclen, hglen, hcflat⟩ := chunked_props B nrs rows hnrs hrows
  constructor
  · intro hchat
    have hstep1 : chatglmRepack nrs inputLen maxGen rows =
        (if nrs ≠ 0 ∧ rows.length % nrs = 0 then
          match mapE (fun grp => mapE (fun row =>
              sliceCopy (List.replicate maxGen 0)
                ((row.drop inputLen).take ((rows.headD []).length - inputLen))
                ((rows.headD []).length - inputLen)) grp)
            (chunked nrs rows) with
          | Except.error e => Except.error e
          | Except.ok cube =>
            if nrs = 1 then Except.ok (GenResult.two cube.flatten)
            else Except.ok (GenResult.three cube)
        else Except.error "RuntimeError: reshape") := rfl
    have hcube : mapE (fun grp => mapE (fun row =>
        sliceCopy (List.replicate maxGen 0)
          ((row.drop inputLen).take ((rows.headD []).length - inputLen))
          ((rows.headD []).length - inputLen)) grp) (chunked nrs rows)
        = Except.ok ((chunked nrs rows).map (List.map (fun row =>
            row.drop inputLen ++ List.replicate (maxGen - (L - inputLen)) 0))) := by
      apply cube_ok B nrs rows _ _ hnrs hrows
      intro row hrow
      have hrl : row.length = L := hwidth row hrow
      have hdl : (row.drop inputLen).length = L - inputLen := by
        rw [List.length_drop, hrl]
      rw [hL, List.take_of_length_le (le_of_eq hdl)]
      exact sliceCopy_pad _ _ _ hdl (by omega)
    refine ⟨?_, ?_, hclen, hglen, ?_⟩
    · rw [hstep1, if_pos ⟨Nat.pos_iff_ne_zero.mp hnrs, hmod⟩, hcube]
      show (if nrs = 1 then
          Except.ok (GenResult.two ((chunked nrs rows).map (List.map (fun row =>
            row.drop inputLen
              ++ List.replicate (maxGen - (L - inputLen)) 0))).flatten)
        else
          Except.ok (GenResult.three ((chunked nrs rows).map (List.map (fun row =>
            row.drop inputLen ++ List.replicate (maxGen - (L - inputLen)) 0))))) = _
      by_cases hn1 : nrs = 1
      · rw [if_pos hn1, if_pos hn1]
        show Except.ok (GenResult.two _) = Except.ok (GenResult.two _)
        rw [← List.map_flatten, hcflat]
      · rw [if_neg hn1, if_neg hn1]
    · intro row hrow
      have hdl : (row.drop inputLen).length = L - inputLen := by
        rw [List.length_drop, hwidth row hrow]
      rw [List.length_append, hdl, List.length_replicate]
      omega
    · intro hn1
      rw [List.length_map, hrows, hn1]
      exact Nat.mul_one B
  · intro hxp
    have hstep1 : xprophetnetRepack nrs maxGen rows =
        (if nrs ≠ 0 ∧ rows.length % nrs = 0 then
          match mapE (fun grp => mapE (fun row =>
              sliceCopy (List.replicate maxGen 0) row
                (rows.headD []).length) grp)
            (chunked nrs rows) with
          | Except.error e => Except.error e
          | Except.ok cube =>
            if nrs = 1 then Except.ok (GenResult.two cube.flatten)
            else Except.ok (GenResult.three cube)
        else Except.error "RuntimeError: reshape") := rfl
    have hcube : mapE (fun grp => mapE (fun row =>
        sliceCopy (List.replicate maxGen 0) row (rows.headD []).length) grp)
        (chunked nrs rows)
        = Except.ok ((chunked nrs rows).map (List.map (fun row =>
            row ++ List.replicate (maxGen - L) 0))) := by
      apply cube_ok B nrs rows _ _ hnrs hrows
      intro row hrow
      have hrl : row.length = L := hwidth row hrow
      rw [hL]
      exact sliceCopy_pad _ _ _ hrl (by omega)
    constructor
    · rw [hstep1, if_pos ⟨Nat.pos_iff_ne_zero.mp hnrs, hmod⟩, hcube]
      show (if nrs = 1 then
          Except.ok (GenResult.two ((chunked nrs rows).map (List.map (fun row =>
            row ++ List.replicate (maxGen - L) 0))).flatten)
        else
          Except.ok (GenResult.three ((chunked nrs rows).map (List.map (fun row =>
            row ++ List.replicate (maxGen - L) 0))))) = _
      by_cases hn1 : nrs = 1
      · rw [if_pos hn1, if_pos hn1]
        show Except.ok (GenResult.two _) = Except.ok (GenResult.two _)
        rw [← List.map_flatten, hcflat]
      · rw [if_neg hn1, if_neg hn1]
    · intro row hrow
      rw [List.length_append, List.length_replicate, hwidth row hrow]
      omega

/-- Witness for C5 at a concrete input: two decoder rows of width 3 with
prompt length 1, `max_gen_seq_length = 4`, `num_return_sequences = 1`:
ChatGLM drops the prompt token and zero-pads to width 4; XProphetNet keeps
the whole row and zero-pads to width 4. -/
theorem c5_witness :
    chatglmRepack 1 1 4 [[9, 5, 6], [9, 7, 8]]
      = Except.ok (GenResult.two [[5, 6, 0, 0], [7, 8, 0, 0]]) ∧
    xprophetnetRepack 1 4 [[9, 5, 6], [9, 7, 8]]
      = Except.ok (GenResult.two [[9, 5, 6, 0], [9, 7, 8, 0]]) := by
  have h := c5_generate_fixed_width 2 1 1 4 3 [[9, 5, 6], [9, 7, 8]]
    (by decide) (by decide) (by decide) (by decide) (by decide)
  constructor
  · rw [(h.1 (by decide)).1]
    rfl
  · rw [(h.2 (by decide)).1]
    rfl
